import Mathlib

/-!
Shallow embedding of the smart-shell MCP server's command resolution and
translation pipeline (source: `src/server.ts` of mr-wolf-gb/smart-shell-mcp).

Strings are modelled over `List Char`; the JavaScript string primitives used
by the source (`trim`, `toLowerCase`, `startsWith`, `includes`, regex tests
and replaces restricted to the concrete patterns appearing in the source)
are given explicit executable definitions below.
-/

namespace SmartShell

/-- JS regex word character class `\w` = `[A-Za-z0-9_]` (ASCII). -/
def isWordChar (c : Char) : Bool :=
  (('A' ≤ c && c ≤ 'Z') || ('a' ≤ c && c ≤ 'z') || ('0' ≤ c && c ≤ '9') || c = '_')

/-- Whitespace trimming on character lists, both ends (JS `String.prototype.trim`). -/
def trimChars (l : List Char) : List Char :=
  ((l.dropWhile Char.isWhitespace).reverse.dropWhile Char.isWhitespace).reverse

/-- JS `trim()`. -/
def jsTrim (s : String) : String :=
  String.mk (trimChars s.data)

/-- JS `toLowerCase()` (ASCII). -/
def lowerStr (s : String) : String :=
  String.mk (s.data.map Char.toLower)

/-- If `pat` is a prefix of `l`, return the remainder of `l` after `pat`. -/
def matchPat : List Char → List Char → Option (List Char)
  | [], l => some l
  | _ :: _, [] => none
  | p :: ps, c :: cs => if c = p then matchPat ps cs else none

/-- JS `startsWith`. -/
def strStartsWith (s pre : String) : Bool :=
  (matchPat pre.data s.data).isSome

/-- Substring occurrence over character lists (JS `includes`). -/
def containsSubAux (needle : List Char) : List Char → Bool
  | [] => (matchPat needle []).isSome
  | c :: rest => (matchPat needle (c :: rest)).isSome || containsSubAux needle rest

/-- JS `includes`. -/
def containsSub (hay needle : String) : Bool :=
  containsSubAux needle.data hay.data

/-- A JS `\b` word boundary holds after a word character at this point:
the next character is absent or not a word character. -/
def boundaryOk : List Char → Bool
  | [] => true
  | a :: _ => !isWordChar a

/-- Test for a whole-word occurrence `\bPAT\b` where `PAT = p :: ps` begins and
ends with a word character (true of the patterns `npm`, `npm run`, `pip` used
by the source). `prevWord` records whether the previous character of the
subject was a word character. -/
def testWordAux (p : Char) (ps : List Char) : Bool → List Char → Bool
  | _, [] => false
  | prevWord, c :: rest =>
    (if prevWord = false ∧ c = p then
      (match matchPat ps rest with
       | some after => boundaryOk after
       | none => false)
     else false) || testWordAux p ps (isWordChar c) rest

/-- JS `/\bPAT\b/.test(subject)` for a nonempty `PAT` beginning and ending with
a word character. An empty pattern trivially matches. -/
def testWord (pat subject : String) : Bool :=
  match pat.data with
  | [] => true
  | p :: ps => testWordAux p ps false subject.data

/-- One pass of JS `subject.replace(/\bPAT\b/g, rep)` for `PAT = p :: ps`
beginning and ending with a word character. Each step consumes at least one
character of the subject, so fuel equal to the subject length suffices; the
fuel-exhausted arm is never reached. After a replacement the scan resumes
after the matched text, whose last character is a word character, so
`prevWord` is `true` there. -/
def replaceWordAux (p : Char) (ps rep : List Char) : Nat → Bool → List Char → List Char
  | 0, _, l => l
  | _ + 1, _, [] => []
  | fuel + 1, prevWord, c :: rest =>
    if prevWord = false ∧ c = p then
      match matchPat ps rest with
      | some after =>
        if boundaryOk after then rep ++ replaceWordAux p ps rep fuel true after
        else c :: replaceWordAux p ps rep fuel (isWordChar c) rest
      | none => c :: replaceWordAux p ps rep fuel (isWordChar c) rest
    else c :: replaceWordAux p ps rep fuel (isWordChar c) rest

/-- JS `subject.replace(/\bPAT\b/g, rep)` for the word patterns used by the
source (`npm`, `npm run`). -/
def replaceWord (pat rep subject : String) : String :=
  match pat.data with
  | [] => subject
  | p :: ps => String.mk (replaceWordAux p ps rep.data subject.data.length false subject.data)

/-- JS `Array.prototype.join(" ")`. -/
def joinSpace : List String → String
  | [] => ""
  | [s] => s
  | s :: s2 :: rest => s ++ " " ++ joinSpace (s2 :: rest)

/-! ## Data model -/

/-- Target operating system, as produced by `getOS()`. -/
inductive OS where
  | windows
  | linux
  | darwin
deriving DecidableEq

/-- One entry of the translation table's `base` mapping: the per-OS
replacement strings, each possibly absent. -/
structure OSMap where
  windows : Option String
  linux : Option String
  darwin : Option String
deriving DecidableEq

/-- JS `entry?.[os]`. -/
def OSMap.get (m : OSMap) (os : OS) : Option String :=
  match os with
  | OS.windows => m.windows
  | OS.linux => m.linux
  | OS.darwin => m.darwin

/-- A JS object as an association list with unique keys; `assocFind` is
property access `obj[key]`, returning the first binding. -/
def assocFind {α : Type} : List (String × α) → String → Option α
  | [], _ => none
  | (k, v) :: rest, key => if k = key then some v else assocFind rest key

/-- JS `obj[key] = v`: replace the first binding of `key` or append one. -/
def setAssoc {α : Type} : List (String × α) → String → α → List (String × α)
  | [], key, v => [(key, v)]
  | (k, w) :: rest, key, v =>
    if k = key then (key, v) :: rest else (k, w) :: setAssoc rest key v

/-- JS `delete obj[key]`. -/
def eraseKey {α : Type} : List (String × α) → String → List (String × α)
  | [], _ => []
  | (k, v) :: rest, key =>
    if k = key then eraseKey rest key else (k, v) :: eraseKey rest key

/-- The translation table's `base` object. -/
abbrev BaseTable := List (String × OSMap)

/-- The project-commands file contents: project name (or `"default"`) to a
mapping from logical command key to raw command string. -/
abbrev CommandTable := List (String × List (String × String))

/-- Two-level lookup `table[a]?.[b]`. -/
def lookup2 (t : CommandTable) (a b : String) : Option String :=
  (assocFind t a).bind (fun sub => assocFind sub b)

/-! ## Segment splitter (`splitPipelines`) -/

/-- Flush the scan buffer: emit the trimmed buffer if nonempty
(`if (buf.trim()) parts.push(buf.trim())`). -/
def flushBuf (buf : List Char) : List String :=
  if jsTrim (String.mk buf) = "" then [] else [jsTrim (String.mk buf)]

/-- The character scan of `splitPipelines`: two-character separators `&&` and
`||` are checked before the single-character separators `|` and `;`; any
other character is appended to the buffer. -/
def splitPipelinesAux : List Char → List Char → List String
  | buf, [] => flushBuf buf
  | buf, [c] =>
    if c = '|' then flushBuf buf ++ ["|"] ++ splitPipelinesAux [] []
    else if c = ';' then flushBuf buf ++ [";"] ++ splitPipelinesAux [] []
    else splitPipelinesAux (buf ++ [c]) []
  | buf, c1 :: c2 :: rest =>
    if (c1 = '&' ∧ c2 = '&') ∨ (c1 = '|' ∧ c2 = '|') then
      flushBuf buf ++ [String.mk [c1, c2]] ++ splitPipelinesAux [] rest
    else if c1 = '|' then flushBuf buf ++ ["|"] ++ splitPipelinesAux [] (c2 :: rest)
    else if c1 = ';' then flushBuf buf ++ [";"] ++ splitPipelinesAux [] (c2 :: rest)
    else splitPipelinesAux (buf ++ [c1]) (c2 :: rest)

/-- `splitPipelines(cmd)`. -/
def splitPipelines (cmd : String) : List String :=
  splitPipelinesAux [] cmd.data

/-- No separator occurs in the character list: no `|`, no `;`, and no two
adjacent `&` characters (this also excludes `&&` and `||`). -/
def noSepChars : List Char → Bool
  | [] => true
  | [c] => !(c = '|') && !(c = ';')
  | c1 :: c2 :: rest =>
    !(c1 = '|') && !(c1 = ';') && !(c1 = '&' && c2 = '&') && noSepChars (c2 :: rest)

/-! ## Per-segment translator (`translateSingle`) -/

/-- Head token: the leading run of non-whitespace characters, i.e. group 1 of
the JS regex `^(\S+)(.*)$` with the `s` flag; empty when the regex fails
(empty input or leading whitespace). -/
def headTok (cmd : String) : String :=
  String.mk (cmd.data.takeWhile (fun c => !c.isWhitespace))

/-- Tail: everything after the head token (group 2 of `^(\S+)(.*)$`),
including its leading whitespace. -/
def tailStr (cmd : String) : String :=
  String.mk (cmd.data.dropWhile (fun c => !c.isWhitespace))

/-- Case-insensitive scan of the base keys: the first key whose lowercase
form equals the (lowercased) head wins. -/
def findKey : BaseTable → String → Option OSMap
  | [], _ => none
  | (k, m) :: rest, lowerHead =>
    if lowerHead = lowerStr k then some m else findKey rest lowerHead

/-- `tail.trim().replace(/^\-rf\s*/, "")` when the trimmed tail starts with
`-rf`: the three pattern characters and the following whitespace run are
removed. -/
def rmRfStrip (tail : String) : String :=
  String.mk (((jsTrim tail).data.drop 3).dropWhile Char.isWhitespace)

/-- `translateSingle(cmd, os, map)`: head-token rewrite with the
recursive-delete special case. `replacement` is a JS
`string | undefined`, and the special case fires on `!replacement`, i.e.
when it is `undefined` or the empty string. -/
def translateSingle (cmd : String) (os : OS) (base : BaseTable) : String :=
  if headTok cmd = "" then cmd
  else
    let head := headTok cmd
    let tail := tailStr cmd
    let lowerHead := lowerStr head
    let replacement? : Option String := (findKey base lowerHead).map (fun m => (m.get os).getD head)
    if replacement?.getD "" = "" then
      if lowerHead = "rm" ∧ strStartsWith (jsTrim tail) "-rf" then
        match (assocFind base "rm -rf").bind (fun m => m.get os) with
        | some mapped =>
          if mapped = "" then jsTrim (replacement?.getD head ++ tail)
          else jsTrim (mapped ++ " " ++ rmRfStrip tail)
        | none => jsTrim (replacement?.getD head ++ tail)
      else jsTrim (replacement?.getD head ++ tail)
    else jsTrim (replacement?.getD head ++ tail)

/-- `translateCommandForOS(raw, os, map)`: translate every non-separator
segment and join with single spaces. -/
def translateCommandForOS (raw : String) (os : OS) (base : BaseTable) : String :=
  joinSpace ((splitPipelines raw).map (fun seg =>
    if seg = "&&" ∨ seg = "||" ∨ seg = "|" ∨ seg = ";" then seg
    else translateSingle seg os base))

/-! ## Argument quoting (`quoteArg`) -/

/-- The character class of the bare-token regex `[A-Za-z0-9_\-\.\/]`. -/
def isBareChar (c : Char) : Bool :=
  ('A' ≤ c && c ≤ 'Z') || ('a' ≤ c && c ≤ 'z') || ('0' ≤ c && c ≤ '9') ||
    c = '_' || c = '-' || c = '.' || c = '/'

/-- JS `/^[A-Za-z0-9_\-\.\/]+$/.test(a)`. -/
def isBare (a : String) : Bool :=
  !a.data.isEmpty && a.data.all isBareChar

/-- JS `a.replace(/"/g, CHR(92) ++ CHR(34))`: backslash-escape every double
quote. -/
def escQuote : List Char → List Char
  | [] => []
  | c :: rest => if c = '"' then '\\' :: '"' :: escQuote rest else c :: escQuote rest

/-- `quoteArg(a)`. -/
def quoteArg (a : String) : String :=
  if isBare a then a else "\"" ++ String.mk (escQuote a.data) ++ "\""

/-! ## Command resolver (`resolveProjectCommand`, `removeProjectCommand`) -/

/-- `resolveProjectCommand(projectName, key)` over the loaded table:
`fileData[projectName]?.[key] ?? fileData["default"]?.[key]`. -/
def resolveProjectCommand (data : CommandTable) (projectName key : String) : Option String :=
  let fromDefault := lookup2 data "default" key
  let fromProject := lookup2 data projectName key
  match fromProject with
  | some v => some v
  | none => fromDefault

/-- Outcome of `removeProjectCommand`: the returned `removed` flag, the table
contents after the call, and whether the table was written back to storage
(`saveJson` reached). -/
structure RemoveResult where
  removed : Bool
  data : CommandTable
  persisted : Bool
deriving DecidableEq

/-- `removeProjectCommand(projectName, key)`: when the project has no
sub-mapping the function returns `{removed: false}` before the save;
otherwise it deletes the key (a no-op if absent) and persists. -/
def removeProjectCommand (data : CommandTable) (projectName key : String) : RemoveResult :=
  match assocFind data projectName with
  | none => ⟨false, data, false⟩
  | some sub =>
    let existed := (assocFind sub key).isSome
    ⟨existed, setAssoc data projectName (eraseKey sub key), true⟩

/-! ## Flavor detection result and suggestion engine (`buildSuggestion`) -/

/-- The five independent booleans produced by `detectProjectFlavor`. -/
structure Flavor where
  bun : Bool
  yarn : Bool
  pnpm : Bool
  poetry : Bool
  pipenv : Bool
deriving DecidableEq

/-- `buildSuggestion(cmd, stderr, flavor, key)`. When the lowered command
contains `"npm "` but none of the JS flavors is set, control falls out of the
npm block and the pip check still runs. `stderr` is accepted but never
read. -/
def buildSuggestion (cmd : String) (stderr : String) (flavor : Flavor) (key : Option String) :
    Option String :=
  let lc := lowerStr cmd
  let npmPart : Option String :=
    if containsSub lc "npm " then
      if flavor.bun then
        some (if key = some "install" then "bun install"
              else if key = some "run" then "bun run dev"
              else replaceWord "npm" "bun" cmd)
      else if flavor.yarn then
        some (if key = some "install" then "yarn install"
              else replaceWord "npm run" "yarn" cmd)
      else if flavor.pnpm then
        some (if key = some "install" then "pnpm install"
              else replaceWord "npm run" "pnpm run" cmd)
      else none
    else none
  match npmPart with
  | some s => some s
  | none =>
    if testWord "pip" lc then
      if flavor.poetry then some "poetry install"
      else if flavor.pipenv then some "pipenv install"
      else none
    else none

/-- First-match-wins evaluation of an ordered rule list. -/
def firstMatch : List (Bool × String) → Option String
  | [] => none
  | (c, v) :: rest => if c then some v else firstMatch rest

/-- Modelled from the spec's policy wording for the Suggestion Engine (§4.6 /
claim C6): an ordered rule list applied first-match-wins on the lowered
original command, npm rules (bun, then yarn, then pnpm) before pip rules
(poetry, then pipenv). To be compared with `buildSuggestion`. -/
def suggestionPolicy (cmd : String) (flavor : Flavor) (key : Option String) : Option String :=
  let lc := lowerStr cmd
  let mentionsNpm := containsSub lc "npm "
  let mentionsPip := testWord "pip" lc
  firstMatch
    [ (mentionsNpm && flavor.bun,
        if key = some "install" then "bun install"
        else if key = some "run" then "bun run dev"
        else replaceWord "npm" "bun" cmd),
      (mentionsNpm && flavor.yarn,
        if key = some "install" then "yarn install"
        else replaceWord "npm run" "yarn" cmd),
      (mentionsNpm && flavor.pnpm,
        if key = some "install" then "pnpm install"
        else replaceWord "npm run" "pnpm run" cmd),
      (mentionsPip && flavor.poetry, "poetry install"),
      (mentionsPip && flavor.pipenv, "pipenv install") ]

/-! ## Execution orchestrator (`executeCommand` tool handler) -/

/-- What `runShell` reports back: captured output and the exit code. -/
structure RunOutcome where
  stdout : String
  stderr : String
  exitCode : Int
deriving DecidableEq

/-- The structured payload the `executeCommand` handler serializes. -/
inductive ExecResult where
  | notFound (message : String) (suggestion : Option String)
  | failed (message : String) (suggestion : Option String)
      (resolvedCommand stdout stderr : String) (exitCode : Int)
  | ok (stdout stderr : String) (exitCode : Int) (resolvedCommand : String)
deriving DecidableEq

/-- `[translated, ...args.map(quoteArg)].filter(Boolean).join(" ")`. -/
def fullCommand (translated : String) (args : List String) : String :=
  joinSpace ((translated :: args.map quoteArg).filter (fun s => !(s = "")))

/-- The `executeCommand` handler over loaded state. The external shell is a
parameter `run` from the dispatched command string to its outcome. A falsy
resolved command (`undefined` or the empty string) short-circuits to the
`COMMAND_NOT_FOUND` payload before anything runs. -/
def executeCommand (projectName commandKey : String) (args : List String)
    (os : OS) (base : BaseTable) (table : CommandTable)
    (flavor : Flavor) (run : String → RunOutcome) : ExecResult :=
  let projectCmd? := resolveProjectCommand table projectName commandKey
  if projectCmd?.getD "" = "" then
    ExecResult.notFound ("No command mapping found for key \"" ++ commandKey ++ "\"") none
  else
    let projectCmd := projectCmd?.getD ""
    let translated := translateCommandForOS projectCmd os base
    let full := fullCommand translated args
    let r := run full
    if r.exitCode ≠ 0 then
      ExecResult.failed ("Command failed with exit code " ++ toString r.exitCode)
        (buildSuggestion projectCmd r.stderr flavor (some commandKey))
        full r.stdout r.stderr r.exitCode
    else
      ExecResult.ok r.stdout r.stderr r.exitCode full

/-! ## Concrete tables used by witnesses and counterexamples -/

/-- Base table holding only the reserved compound key. -/
def baseRm : BaseTable := [("rm -rf", ⟨some "rmdir /s /q", none, none⟩)]

/-- Base table where the key `rm` is mapped to the empty string for windows
alongside the reserved compound key. -/
def baseRmEmpty : BaseTable :=
  [("rm", ⟨some "", none, none⟩), ("rm -rf", ⟨some "rmdir /s /q", none, none⟩)]

/-- Base table with a single `ls` entry. -/
def baseLs : BaseTable := [("ls", ⟨some "dir", some "ls", some "ls"⟩)]

/-- Command-key table with a default entry and a project override. -/
def exampleTable : CommandTable :=
  [("default", [("install", "npm install")]), ("p", [("install", "bun install")])]

/-- Command-key table holding only the default sub-mapping. -/
def defaultOnlyTable : CommandTable := [("default", [("install", "npm install")])]

/-- Command-key table whose default `install` entry is the empty string. -/
def emptyValueTable : CommandTable := [("default", [("install", "")])]

/-! ## Helper lemmas -/

/-- With no separator in sight the scan only ever extends its buffer, so the
result is the final flush of the buffer followed by the whole input. -/
theorem splitAux_noSep : ∀ buf l, noSepChars l = true →
    splitPipelinesAux buf l = flushBuf (buf ++ l) := by
  intro buf l
  induction buf, l using splitPipelinesAux.induct with
  | case1 buf => intro _; simp [splitPipelinesAux]
  | case2 buf ih => intro h; simp [noSepChars] at h
  | case3 buf hne ih => intro h; simp [noSepChars] at h
  | case4 buf c h1 h2 ih =>
    intro _
    simp only [splitPipelinesAux, if_neg h1, if_neg h2]
  | case5 buf c1 c2 rest hsep ih =>
    intro h
    rcases hsep with ⟨e1, e2⟩ | ⟨e1, e2⟩ <;> subst e1 <;> subst e2 <;>
      simp [noSepChars] at h
  | case6 buf c2 rest hsep ih =>
    intro h; simp [noSepChars] at h
  | case7 buf c2 rest hsep hne ih =>
    intro h; simp [noSepChars] at h
  | case8 buf c1 c2 rest hsep h1 h2 ih =>
    intro h
    simp only [noSepChars, Bool.and_eq_true, Bool.not_eq_true'] at h
    obtain ⟨⟨⟨-, -⟩, -⟩, hrest⟩ := h
    simp only [splitPipelinesAux, if_neg hsep, if_neg h1, if_neg h2]
    rw [ih hrest]
    simp

/-- The head token and the tail reassemble the segment. -/
theorem headTok_append_tailStr (cmd : String) : headTok cmd ++ tailStr cmd = cmd := by
  cases cmd with
  | mk l =>
    show String.mk (_ ++ _) = String.mk l
    rw [List.takeWhile_append_dropWhile]

/-- Deleting an absent key is a no-op. -/
theorem eraseKey_not_mem {α : Type} (l : List (String × α)) (key : String)
    (h : assocFind l key = none) : eraseKey l key = l := by
  induction l with
  | nil => rfl
  | cons p rest ih =>
    obtain ⟨k, v⟩ := p
    by_cases hk : k = key
    · simp [assocFind, hk] at h
    · simp only [eraseKey, if_neg hk]
      simp only [assocFind, if_neg hk] at h
      rw [ih h]

/-- Writing back the value a key already holds leaves the object unchanged. -/
theorem setAssoc_self {α : Type} (l : List (String × α)) (key : String) (sub : α)
    (h : assocFind l key = some sub) : setAssoc l key sub = l := by
  induction l with
  | nil => simp [assocFind] at h
  | cons p rest ih =>
    obtain ⟨k, v⟩ := p
    by_cases hk : k = key
    · subst hk
      have h2 : v = sub := by simpa [assocFind] using h
      subst h2
      simp [setAssoc]
    · simp only [assocFind, if_neg hk] at h
      simp only [setAssoc, if_neg hk]
      rw [ih h]

/-! ## Claim theorems -/

/-- C1: when the head token has no case-insensitive match among the base
keys, the head is (case-insensitively) `rm`, the trimmed tail begins with
`-rf`, and the reserved compound key `rm -rf` has a (nonempty) replacement
for the OS, `translateSingle` returns that replacement followed by a space
and the trimmed tail with the leading `-rf` and following whitespace
stripped, all trimmed. -/
theorem translate_rm_rf (cmd : String) (os : OS) (base : BaseTable) (repl : String)
    (hhead : headTok cmd ≠ "")
    (hno : findKey base (lowerStr (headTok cmd)) = none)
    (hrm : lowerStr (headTok cmd) = "rm")
    (htail : strStartsWith (jsTrim (tailStr cmd)) "-rf" = true)
    (hmap : (assocFind base "rm -rf").bind (fun m => m.get os) = some repl)
    (hne : repl ≠ "") :
    translateSingle cmd os base =
      jsTrim (repl ++ " " ++
        String.mk (((jsTrim (tailStr cmd)).data.drop 3).dropWhile Char.isWhitespace)) := by
  rw [translateSingle, if_neg hhead]
  rw [hrm] at hno
  simp only [hrm, hno, Option.map_none', Option.getD_none, htail, hmap, rmRfStrip]
  simp [hne]

/-- Witness for C1 at the spec's example: `rm -rf build` on windows with the
reserved key mapped to `rmdir /s /q`. -/
theorem translate_rm_rf_witness :
    headTok "rm -rf build" ≠ "" ∧
    translateSingle "rm -rf build" OS.windows baseRm = "rmdir /s /q build" := by
  refine ⟨by decide, ?_⟩
  rw [translate_rm_rf "rm -rf build" OS.windows baseRm "rmdir /s /q" (by decide) (by decide)
    (by decide) (by decide) (by decide) (by decide)]
  decide

/-- C2 counterexample: with `rm` mapped to the empty string for windows and
the reserved `rm -rf` key present, the head token `rm` of `rm -rf build` has
a case-insensitive direct match whose windows value is `some ""`, yet the
result is not the claimed head-replacement ++ tail (trimmed): the empty
replacement is falsy in JS, so the recursive-delete branch fires instead. -/
theorem translate_head_match_counterexample :
    findKey baseRmEmpty (lowerStr (headTok "rm -rf build")) = some ⟨some "", none, none⟩ ∧
    OSMap.get ⟨some "", none, none⟩ OS.windows = some "" ∧
    translateSingle "rm -rf build" OS.windows baseRmEmpty = "rmdir /s /q build" ∧
    translateSingle "rm -rf build" OS.windows baseRmEmpty ≠
      jsTrim ("" ++ tailStr "rm -rf build") := by
  decide

/-- C2 (amended): on a matched base key the head is replaced by the key's
nonempty OS value (or kept when the OS entry is absent) and the unmodified
tail is appended, trimmed; a matched empty-string OS value is treated as
falsy, so the recursive-delete special case can fire instead; with no match
and the recursive-delete rule inapplicable, a trimmed segment is returned
unchanged; includes the spec's `LS` and `foo bar` examples. -/
theorem translate_head_match_amended (cmd : String) (os : OS) (base : BaseTable)
    (hhead : headTok cmd ≠ "") :
    (∀ m v, findKey base (lowerStr (headTok cmd)) = some m → m.get os = some v → v ≠ "" →
      translateSingle cmd os base = jsTrim (v ++ tailStr cmd)) ∧
    (∀ m, findKey base (lowerStr (headTok cmd)) = some m → m.get os = none →
      translateSingle cmd os base = jsTrim (headTok cmd ++ tailStr cmd)) ∧
    (∀ m, findKey base (lowerStr (headTok cmd)) = some m → m.get os = some "" →
      lowerStr (headTok cmd) = "rm" →
      strStartsWith (jsTrim (tailStr cmd)) "-rf" = true →
      ∀ r, (assocFind base "rm -rf").bind (fun mm => mm.get os) = some r → r ≠ "" →
      translateSingle cmd os base = jsTrim (r ++ " " ++ rmRfStrip (tailStr cmd))) ∧
    (findKey base (lowerStr (headTok cmd)) = none →
      (lowerStr (headTok cmd) = "rm" →
        strStartsWith (jsTrim (tailStr cmd)) "-rf" = true →
        ∀ r, (assocFind base "rm -rf").bind (fun mm => mm.get os) = some r → r = "") →
      jsTrim cmd = cmd →
      translateSingle cmd os base = cmd) ∧
    translateSingle "LS" OS.darwin baseLs = "ls" ∧
    (∀ os2 : OS, translateSingle "foo bar" os2 baseLs = "foo bar") := by
  refine ⟨?_, ?_, ?_, ?_, by decide, fun os2 => by cases os2 <;> decide⟩
  · intro m v hfind hget hv
    rw [translateSingle, if_neg hhead]
    simp only [hfind, Option.map_some', hget, Option.getD_some]
    rw [if_neg hv]
  · intro m hfind hget
    rw [translateSingle, if_neg hhead]
    simp only [hfind, Option.map_some', hget, Option.getD_none, Option.getD_some]
    rw [if_neg hhead]
  · intro m hfind hget hrm htail r hmap hr
    rw [hrm] at hfind
    rw [translateSingle, if_neg hhead]
    simp only [hrm, hfind, Option.map_some', hget, Option.getD_some, htail, hmap]
    simp [hr]
  · intro hfind hcond htrim
    rw [translateSingle, if_neg hhead]
    simp only [hfind, Option.map_none', Option.getD_none]
    have hid : jsTrim (headTok cmd ++ tailStr cmd) = cmd := by
      rw [headTok_append_tailStr, htrim]
    by_cases hrm : lowerStr (headTok cmd) = "rm"
    · by_cases hts : strStartsWith (jsTrim (tailStr cmd)) "-rf" = true
      · cases hmm : (assocFind base "rm -rf").bind (fun mm => mm.get os) with
        | none => simp [hrm, hts, hmm, hid]
        | some r =>
          have := hcond hrm hts r hmm
          subst this
          simp [hrm, hts, hmm, hid]
      · simp [hrm, hts, hid]
    · simp [hrm, hid]

/-- Witness for C2 (amended) at the spec's `LS`/darwin example. -/
theorem translate_head_match_witness :
    headTok "LS" ≠ "" ∧
    translateSingle "LS" OS.darwin baseLs = jsTrim ("ls" ++ tailStr "LS") :=
  ⟨by decide, (translate_head_match_amended "LS" OS.darwin baseLs (by decide)).1
    ⟨some "dir", some "ls", some "ls"⟩ "ls" (by decide) (by decide) (by decide)⟩

/-- C3: on separator-free input, split yields exactly the trimmed input (or
the empty sequence when that is blank); adjacent separators are preserved
without collapsing, and two-character separators are matched before
single-character ones. -/
theorem split_noSep_and_adjacent :
    (∀ cmd : String, noSepChars cmd.data = true →
      splitPipelines cmd = if jsTrim cmd = "" then [] else [jsTrim cmd]) ∧
    splitPipelines "a;;b" = ["a", ";", ";", "b"] ∧
    splitPipelines "a||b" = ["a", "||", "b"] ∧
    splitPipelines "a&&b" = ["a", "&&", "b"] ∧
    splitPipelines "a|b" = ["a", "|", "b"] := by
  refine ⟨?_, by decide, by decide, by decide, by decide⟩
  intro cmd h
  rw [splitPipelines, splitAux_noSep [] cmd.data h]
  simp [flushBuf, jsTrim]

/-- Witness for C3 on a separator-free input with surrounding whitespace. -/
theorem split_noSep_witness :
    noSepChars "  hello world ".data = true ∧
    splitPipelines "  hello world " =
      if jsTrim "  hello world " = "" then [] else [jsTrim "  hello world "] :=
  ⟨by decide, split_noSep_and_adjacent.1 "  hello world " (by decide)⟩

/-- C4: the resolver returns the project's own entry when present, falls back
to the `default` sub-mapping otherwise, and yields nothing exactly when both
are absent; includes the spec's precedence examples. -/
theorem resolve_precedence :
    (∀ t pn key v, lookup2 t pn key = some v → resolveProjectCommand t pn key = some v) ∧
    (∀ t pn key, lookup2 t pn key = none →
      resolveProjectCommand t pn key = lookup2 t "default" key) ∧
    (∀ t pn key, lookup2 t pn key = none → lookup2 t "default" key = none →
      resolveProjectCommand t pn key = none) ∧
    resolveProjectCommand exampleTable "p" "install" = some "bun install" ∧
    resolveProjectCommand exampleTable "q" "install" = some "npm install" ∧
    resolveProjectCommand exampleTable "q" "test" = none := by
  refine ⟨?_, ?_, ?_, by decide, by decide, by decide⟩
  · intro t pn key v h
    simp [resolveProjectCommand, h]
  · intro t pn key h
    simp [resolveProjectCommand, h]
  · intro t pn key h hd
    simp [resolveProjectCommand, h, hd]

/-- Witness for C4 at the project-override example. -/
theorem resolve_precedence_witness :
    lookup2 exampleTable "p" "install" = some "bun install" ∧
    resolveProjectCommand exampleTable "p" "install" = some "bun install" :=
  ⟨by decide, resolve_precedence.1 exampleTable "p" "install" "bun install" (by decide)⟩

/-- C5 counterexample: removing a key for a project that has no sub-mapping
returns early with `removed: false` and does not persist the table, refuting
the claim that the table is persisted regardless of whether anything was
removed. -/
theorem remove_no_submap_counterexample :
    (removeProjectCommand defaultOnlyTable "q" "install").persisted = false ∧
    removeProjectCommand defaultOnlyTable "q" "install" =
      ⟨false, defaultOnlyTable, false⟩ := by
  decide

/-- C5 (amended): `removed` is true exactly when the key existed in the
project's own sub-mapping (never consulting `default`); the table is
persisted afterward whenever the project has a sub-mapping, but when it has
none the call returns without persisting; the stored contents are unchanged
whenever the key was never set for that project. -/
theorem remove_amended :
    (∀ d pn key, (removeProjectCommand d pn key).removed = (lookup2 d pn key).isSome) ∧
    (∀ d pn key sub, assocFind d pn = some sub →
      (removeProjectCommand d pn key).persisted = true) ∧
    (∀ d pn key, assocFind d pn = none →
      removeProjectCommand d pn key = ⟨false, d, false⟩) ∧
    (∀ d pn key, lookup2 d pn key = none → (removeProjectCommand d pn key).data = d) := by
  refine ⟨?_, ?_, ?_, ?_⟩
  · intro d pn key
    cases h : assocFind d pn with
    | none => simp [removeProjectCommand, h, lookup2]
    | some sub => simp [removeProjectCommand, h, lookup2]
  · intro d pn key sub h
    simp [removeProjectCommand, h]
  · intro d pn key h
    simp [removeProjectCommand, h]
  · intro d pn key h
    cases hpn : assocFind d pn with
    | none => simp [removeProjectCommand, hpn]
    | some sub =>
      simp only [lookup2, hpn, Option.bind_some] at h
      simp only [removeProjectCommand, hpn]
      rw [eraseKey_not_mem sub key h, setAssoc_self d pn sub hpn]

/-- Witness for C5 (amended): a project with a sub-mapping does persist. -/
theorem remove_amended_witness :
    assocFind exampleTable "p" = some [("install", "bun install")] ∧
    (removeProjectCommand exampleTable "p" "install").persisted = true :=
  ⟨by decide, remove_amended.2.1 exampleTable "p" "install" [("install", "bun install")]
    (by decide)⟩

/-- C6: `buildSuggestion` implements the first-match-wins rule list on the
lowered original command — npm rules (bun before yarn before pnpm) before
whole-word pip rules (poetry before pipenv), no suggestion otherwise. -/
theorem buildSuggestion_policy (cmd stderr : String) (flavor : Flavor) (key : Option String) :
    buildSuggestion cmd stderr flavor key = suggestionPolicy cmd flavor key := by
  obtain ⟨b, y, pm, po, pi⟩ := flavor
  simp only [buildSuggestion, suggestionPolicy]
  cases h1 : containsSub (lowerStr cmd) "npm " <;>
    cases h2 : testWord "pip" (lowerStr cmd) <;>
      cases b <;> cases y <;> cases pm <;> cases po <;> cases pi <;>
        simp [firstMatch]

/-- C7: the suggestion depends only on the original command, the flavor set
and the key — never on `stderr` — and with all five flavor booleans false no
suggestion is produced. -/
theorem suggestion_determinism :
    (∀ cmd s1 s2 flavor key,
      buildSuggestion cmd s1 flavor key = buildSuggestion cmd s2 flavor key) ∧
    (∀ cmd s key, buildSuggestion cmd s ⟨false, false, false, false, false⟩ key = none) := by
  refine ⟨fun cmd s1 s2 flavor key => rfl, ?_⟩
  intro cmd s key
  simp only [buildSuggestion]
  cases h1 : containsSub (lowerStr cmd) "npm " <;>
    cases h2 : testWord "pip" (lowerStr cmd) <;> simp

/-- C8: on a resolved, non-falsy command the handler runs the translated
command with each argument individually quoted joined by spaces, and returns
the failure payload (message, suggestion, resolved command, captured output,
exit code) on non-zero exit and the success payload on zero exit; bare-token
arguments pass through unquoted and all others are wrapped in double quotes
with internal double quotes backslash-escaped. -/
theorem execute_command_spec (pn key : String) (args : List String) (os : OS)
    (base : BaseTable) (table : CommandTable) (flavor : Flavor)
    (run : String → RunOutcome) (cmd : String)
    (hres : resolveProjectCommand table pn key = some cmd) (hne : cmd ≠ "") :
    ((run (fullCommand (translateCommandForOS cmd os base) args)).exitCode ≠ 0 →
      executeCommand pn key args os base table flavor run =
        ExecResult.failed
          ("Command failed with exit code " ++
            toString (run (fullCommand (translateCommandForOS cmd os base) args)).exitCode)
          (buildSuggestion cmd
            (run (fullCommand (translateCommandForOS cmd os base) args)).stderr flavor (some key))
          (fullCommand (translateCommandForOS cmd os base) args)
          (run (fullCommand (translateCommandForOS cmd os base) args)).stdout
          (run (fullCommand (translateCommandForOS cmd os base) args)).stderr
          (run (fullCommand (translateCommandForOS cmd os base) args)).exitCode) ∧
    ((run (fullCommand (translateCommandForOS cmd os base) args)).exitCode = 0 →
      executeCommand pn key args os base table flavor run =
        ExecResult.ok
          (run (fullCommand (translateCommandForOS cmd os base) args)).stdout
          (run (fullCommand (translateCommandForOS cmd os base) args)).stderr
          (run (fullCommand (translateCommandForOS cmd os base) args)).exitCode
          (fullCommand (translateCommandForOS cmd os base) args)) ∧
    (∀ a, isBare a = true → quoteArg a = a) ∧
    (∀ a, isBare a = false → quoteArg a = "\"" ++ String.mk (escQuote a.data) ++ "\"") ∧
    quoteArg "say \"hi\"" = "\"say \\\"hi\\\"\"" ∧
    quoteArg "hello world" = "\"hello world\"" := by
  refine ⟨?_, ?_, ?_, ?_, by decide, by decide⟩
  · intro he
    simp only [executeCommand, hres, Option.getD_some]
    rw [if_neg hne, if_pos he]
  · intro he
    simp only [executeCommand, hres, Option.getD_some]
    rw [if_neg hne, if_neg (by simp [he])]
  · intro a h
    simp [quoteArg, h]
  · intro a h
    simp [quoteArg, h]

/-- Witness for C8: a failing run through the default fallback, with a quoted
argument appended. -/
theorem execute_command_witness :
    resolveProjectCommand exampleTable "q" "install" = some "npm install" ∧
    executeCommand "q" "install" ["-q"] OS.linux [] exampleTable
        ⟨false, false, false, false, false⟩ (fun _ => ⟨"", "boom", 1⟩) =
      ExecResult.failed "Command failed with exit code 1" none "npm install -q" "" "boom" 1 := by
  refine ⟨by decide, ?_⟩
  have h := (execute_command_spec "q" "install" ["-q"] OS.linux [] exampleTable
    ⟨false, false, false, false, false⟩ (fun _ => ⟨"", "boom", 1⟩) "npm install"
    (by decide) (by decide)).1 (by decide)
  rw [h]
  decide

/-- C9: a stored mapping equal to the empty string is found by the resolver
but treated as falsy by the orchestrator, which returns the
`COMMAND_NOT_FOUND` payload without consulting the shell at all (the result
holds for every `run`). -/
theorem execute_empty_mapping (pn key : String) (args : List String) (os : OS)
    (base : BaseTable) (table : CommandTable) (flavor : Flavor)
    (hres : resolveProjectCommand table pn key = some "") :
    ∀ run : String → RunOutcome,
      executeCommand pn key args os base table flavor run =
        ExecResult.notFound ("No command mapping found for key \"" ++ key ++ "\"") none := by
  intro run
  simp [executeCommand, hres]

/-- Witness for C9 at a table whose default `install` value is empty. -/
theorem execute_empty_mapping_witness :
    resolveProjectCommand emptyValueTable "q" "install" = some "" ∧
    executeCommand "q" "install" [] OS.linux [] emptyValueTable
        ⟨false, false, false, false, false⟩ (fun s => ⟨s, "", 0⟩) =
      ExecResult.notFound "No command mapping found for key \"install\"" none :=
  ⟨by decide, execute_empty_mapping "q" "install" [] OS.linux [] emptyValueTable
    ⟨false, false, false, false, false⟩ (by decide) (fun s => ⟨s, "", 0⟩)⟩

/-- C10: the suggestion engine can hand back the failed command itself: a
command whose lowered text contains the substring of an npm invocation but no
whole-word `npm run`, under the yarn flavor with a key other than `install`,
is returned verbatim as the suggestion. -/
theorem suggestion_echoes_original :
    ∃ (cmd : String) (flavor : Flavor) (key : Option String),
      flavor.bun = false ∧ flavor.yarn = true ∧ key ≠ some "install" ∧
      containsSub (lowerStr cmd) "npm " = true ∧
      testWord "npm run" (lowerStr cmd) = false ∧
      buildSuggestion cmd "" flavor key = some cmd := by
  refine ⟨"npm ci", ⟨false, true, false, false, false⟩, some "build", rfl, rfl, by decide,
    by decide, by decide, by decide⟩

end SmartShell
